import Mathlib

/-!
# HyperDistortion: the parameter layout and the visualisation FIFO

A shallow embedding of `source/PluginProcessor.h`:

* `PluginProcessor.createParameterLayout` is the list of parameters that the
  C++ function of the same name pushes into `params`, in the same order.
  Every numeric literal of the header (`-60.0f`, `0.1f`, `0.69f`, ...) is taken
  at the decimal value that is written in the source, as a rational number.
* `PluginProcessor.FifoQueue` is the nested class of the header: the constant
  `bufferSize`, the index manager `fifo` and the two-channel `circularBuffer`.
-/

namespace PluginProcessor

/-! ## Parameters -/

/-- A `juce::RangedAudioParameter` as it is constructed in the header: either
`AudioParameterFloat (ParameterID {id, versionHint}, name, min, max, default)`
or `AudioParameterBool (ParameterID {id, versionHint}, name, default)`. -/
inductive RangedAudioParameter where
  | AudioParameterFloat (id : String) (versionHint : Nat) (name : String)
      (minValue maxValue defaultValue : ℚ)
  | AudioParameterBool (id : String) (versionHint : Nat) (name : String)
      (defaultValue : Bool)
  deriving DecidableEq, Repr

namespace RangedAudioParameter

/-- The identifier string of the `juce::ParameterID`. -/
def paramID : RangedAudioParameter → String
  | AudioParameterFloat id _ _ _ _ _ => id
  | AudioParameterBool id _ _ _ => id

/-- The version hint of the `juce::ParameterID`. -/
def versionHint : RangedAudioParameter → Nat
  | AudioParameterFloat _ v _ _ _ _ => v
  | AudioParameterBool _ v _ _ => v

/-- True for an `AudioParameterFloat`. -/
def isFloat : RangedAudioParameter → Bool
  | AudioParameterFloat .. => true
  | AudioParameterBool .. => false

/-- True for an `AudioParameterBool`. -/
def isBool : RangedAudioParameter → Bool
  | AudioParameterFloat .. => false
  | AudioParameterBool .. => true

/-- The declared `[min, max]` of a float parameter; `none` for a boolean. -/
def range : RangedAudioParameter → Option (ℚ × ℚ)
  | AudioParameterFloat _ _ _ lo hi _ => some (lo, hi)
  | AudioParameterBool .. => none

/-- The declared default of a float parameter; `none` for a boolean. -/
def floatDefault : RangedAudioParameter → Option ℚ
  | AudioParameterFloat _ _ _ _ _ d => some d
  | AudioParameterBool .. => none

/-- The check `min ≤ default ≤ max` on the declared values of a float
parameter; a boolean parameter has no range and passes. -/
def defaultInRange : RangedAudioParameter → Bool
  | AudioParameterFloat _ _ _ lo hi d => decide (lo ≤ d) && decide (d ≤ hi)
  | AudioParameterBool .. => true

end RangedAudioParameter

/-- The body of `PluginProcessor::createParameterLayout`: the parameters pushed
into `params`, in source order (header lines 104 to 152). -/
def createParameterLayout : List RangedAudioParameter :=
  [ .AudioParameterFloat "IN" 1 "In Gain" (-60) 10 0,
    .AudioParameterFloat "OUT" 1 "Out Gain" (-60) 10 0,
    .AudioParameterBool "BYPASS" 1 "Bypass" false,
    .AudioParameterBool "BASS_MONO" 1 "Bass Mono" false,
    .AudioParameterFloat "BASS_MONO_FREQ" 1 "Bass Mono Frequency" 10 300 0,
    .AudioParameterFloat "VIS_SMOOTH" 1 "Visualizer Smoothing Value" 0 1 (69 / 100),
    .AudioParameterFloat "LOW_MID_FREQ" 1 "Low Mid Crossover Frequency" 0 1000 1000,
    .AudioParameterFloat "MID_HIGH_FREQ" 1 "Mid High Crossover Frequency" 1000 15000 15000,
    .AudioParameterBool "LOW_SOLO" 1 "Low band Solo" false,
    .AudioParameterBool "MID_SOLO" 1 "Mid band Solo" false,
    .AudioParameterBool "HIGH_SOLO" 1 "High band Solo" false,
    .AudioParameterFloat "LOW_GAIN" 1 "Low Gain" (-60) 10 0,
    .AudioParameterFloat "MID_GAIN" 1 "Mid Gain" (-60) 10 0,
    .AudioParameterFloat "HIGH_GAIN" 1 "High Gain" (-60) 10 0,
    .AudioParameterFloat "HAAS_TIME" 1 "Haas Time (ms)" 5 35 20,
    .AudioParameterFloat "HAAS_MIX" 1 "Haas Mix" 0 100 50,
    .AudioParameterFloat "CHORUS_RATE" 1 "Chorus Rate" (1 / 10) 5 1,
    .AudioParameterFloat "CHORUS_DEPTH" 1 "Chorus Depth" 0 1 (1 / 2),
    .AudioParameterFloat "CHORUS_CENTRE_DELAY" 1 "Chorus Centre Delay" 1 30 10,
    .AudioParameterFloat "CHORUS_FEEDBACK" 1 "Chorus Feedback" (-95) 95 0,
    .AudioParameterFloat "CHORUS_MIX" 1 "Chorus Mix" 0 100 50,
    .AudioParameterFloat "CONV_MIX" 1 "Convolution Mix" 0 100 50,
    .AudioParameterFloat "COMPRESSOR_THRESHOLD" 1 "Compressor Threshold" (-60) 0 (-24),
    .AudioParameterFloat "COMPRESSOR_RATIO" 1 "Compressor Ratio" 1 20 4,
    .AudioParameterFloat "COMPRESSOR_ATTACK" 1 "Compressor Attack" 1 100 10,
    .AudioParameterFloat "COMPRESSOR_RELEASE" 1 "Compressor Release" 10 500 100,
    .AudioParameterFloat "COMPRESSOR_MIX" 1 "Compressor Mix" 0 100 50 ]

/-- The declared range of the parameter with identifier `id` in the layout
(the first one, should an identifier occur twice); `none` when there is no
such parameter or it is a boolean. -/
def rangeOf (id : String) : Option (ℚ × ℚ) :=
  (createParameterLayout.find? (fun p => p.paramID == id)).bind RangedAudioParameter.range

/-- The declared default of the float parameter with identifier `id`. -/
def defaultOf (id : String) : Option ℚ :=
  (createParameterLayout.find? (fun p => p.paramID == id)).bind
    RangedAudioParameter.floatDefault

/-- The parameter list of the specification (section 6), written with the
identifiers of the header: an identifier with its range, or `none` for a
boolean. This definition follows the words of the specification and is the
one the layout of the source is compared with. -/
def specParameterList : List (String × Option (ℚ × ℚ)) :=
  [ ("IN", some (-60, 10)), ("OUT", some (-60, 10)),
    ("BYPASS", none),
    ("BASS_MONO", none), ("BASS_MONO_FREQ", some (10, 300)),
    ("VIS_SMOOTH", some (0, 1)),
    ("LOW_MID_FREQ", some (0, 1000)),
    ("MID_HIGH_FREQ", some (1000, 15000)),
    ("LOW_SOLO", none), ("MID_SOLO", none), ("HIGH_SOLO", none),
    ("LOW_GAIN", some (-60, 10)), ("MID_GAIN", some (-60, 10)), ("HIGH_GAIN", some (-60, 10)),
    ("HAAS_TIME", some (5, 35)), ("HAAS_MIX", some (0, 100)),
    ("CHORUS_RATE", some (1 / 10, 5)), ("CHORUS_DEPTH", some (0, 1)),
    ("CHORUS_CENTRE_DELAY", some (1, 30)), ("CHORUS_FEEDBACK", some (-95, 95)),
    ("CHORUS_MIX", some (0, 100)),
    ("CONV_MIX", some (0, 100)),
    ("COMPRESSOR_THRESHOLD", some (-60, 0)), ("COMPRESSOR_RATIO", some (1, 20)),
    ("COMPRESSOR_ATTACK", some (1, 100)), ("COMPRESSOR_RELEASE", some (10, 500)),
    ("COMPRESSOR_MIX", some (0, 100)) ]

/-! ## Values within the declared ranges -/

/-- The value `v` lies within the declared `[min, max]` of the float parameter
with identifier `id`. The values are taken in any ordered field `K` (the
rationals, the reals), into which the declared bounds are cast. -/
def InRange {K : Type} [LinearOrderedField K] (id : String) (v : K) : Prop :=
  ∃ r, rangeOf id = some r ∧ (r.1 : K) ≤ v ∧ v ≤ (r.2 : K)

/-- Modelled from the spec: the clamping of a requested value to the declared
domain of a parameter, "always silently clamped to the declared domain before
use" (section 7); the code that reads the parameters is not in the header.
`none` when `id` names no float parameter. -/
def clampToRange {K : Type} [LinearOrderedField K] (id : String) (v : K) : Option K :=
  (rangeOf id).map fun r => max (r.1 : K) (min v (r.2 : K))

/-- Modelled from the spec: the weight of the dry signal at `mix` percent,
`1 − mix/100` (section 4.4); the mixing code is not in the header. -/
def dryWeight {K : Type} [LinearOrderedField K] (mix : K) : K := 1 - mix / 100

/-- Modelled from the spec: the weight of the wet signal at `mix` percent,
`mix/100` (section 4.4); the mixing code is not in the header. -/
def wetWeight {K : Type} [LinearOrderedField K] (mix : K) : K := mix / 100

/-- Modelled from the spec: the dry/wet mix of sections 4.4 to 4.7,
`output = dry·(1−mix/100) + wet·(mix/100)`; the mixing code is not in the
header. -/
def dryWetMix {K : Type} [LinearOrderedField K] (dry wet mix : K) : K :=
  dry * dryWeight mix + wet * wetWeight mix

/-- Modelled from the spec: the steady-state gain reduction of the compressor
in decibels, `(level − threshold)·(1 − 1/ratio)` (section 8, property 8); the
compressor is the library class `juce::dsp::Compressor` and its code is not in
the header. -/
def gainReduction {K : Type} [LinearOrderedField K] (level threshold ratio : K) : K :=
  (level - threshold) * (1 - 1 / ratio)

/-- The identifiers of the four dry/wet mix parameters. -/
def mixParameters : List String := ["HAAS_MIX", "CHORUS_MIX", "CONV_MIX", "COMPRESSOR_MIX"]

/-! ## The visualisation FIFO -/

/-- Modelled from the spec: the index manager `juce::AbstractFifo` that the
header instantiates as `fifo { bufferSize }`; its code is not part of the
header. It holds the size of the ring and the two indices of the lock-free
push/pull protocol (section 4.8): `validStart` is where the next read starts
and `validEnd` where the next write starts. -/
structure AbstractFifo where
  bufferSize : Nat
  validStart : Nat
  validEnd : Nat
  deriving DecidableEq, Repr

namespace AbstractFifo

/-- Modelled from the spec: the constructor `AbstractFifo (capacity)`, which
starts empty with both indices at zero. -/
def create (capacity : Nat) : AbstractFifo :=
  { bufferSize := capacity, validStart := 0, validEnd := 0 }

/-- Modelled from the spec: `getTotalSize`, the size the ring was made with. -/
def getTotalSize (f : AbstractFifo) : Nat := f.bufferSize

/-- Modelled from the spec: `getNumReady`, the number of items that are
available for reading ("whatever is available"). -/
def getNumReady (f : AbstractFifo) : Nat :=
  if f.validEnd ≥ f.validStart then f.validEnd - f.validStart
  else f.bufferSize - (f.validStart - f.validEnd)

/-- Modelled from the spec: `getFreeSpace`, the "remaining free capacity". A
ring that is described by two indices alone keeps one slot unused, so that
`validStart = validEnd` always means empty. -/
def getFreeSpace (f : AbstractFifo) : Nat :=
  f.bufferSize - f.getNumReady - 1

/-- Modelled from the spec: `prepareToWrite`. Of the `numToWrite` items asked
for, as many as fit into the free space are granted, as at most two contiguous
segments `(startIndex1, blockSize1, startIndex2, blockSize2)`: the first from
`validEnd` towards the end of the ring, the second from index `0`. -/
def prepareToWrite (f : AbstractFifo) (numToWrite : Nat) : Nat × Nat × Nat × Nat :=
  let granted := min numToWrite f.getFreeSpace
  if granted = 0 then (0, 0, 0, 0)
  else
    let blockSize1 := min (f.bufferSize - f.validEnd) granted
    let rest := granted - blockSize1
    let blockSize2 := if rest = 0 then 0 else min rest f.validStart
    (f.validEnd, blockSize1, 0, blockSize2)

/-- Modelled from the spec: `finishedWrite`, which advances `validEnd` by the
number of items written, wrapping at the end of the ring. -/
def finishedWrite (f : AbstractFifo) (numWritten : Nat) : AbstractFifo :=
  let newEnd := f.validEnd + numWritten
  { f with validEnd := if newEnd ≥ f.bufferSize then newEnd - f.bufferSize else newEnd }

/-- Modelled from the spec: `prepareToRead`. Of the `numWanted` items asked
for, as many as are ready are granted, as at most two contiguous segments: the
first from `validStart` towards the end of the ring, the second from index
`0`. -/
def prepareToRead (f : AbstractFifo) (numWanted : Nat) : Nat × Nat × Nat × Nat :=
  let granted := min numWanted f.getNumReady
  if granted = 0 then (0, 0, 0, 0)
  else
    let blockSize1 := min (f.bufferSize - f.validStart) granted
    let rest := granted - blockSize1
    let blockSize2 := if rest = 0 then 0 else min rest f.validEnd
    (f.validStart, blockSize1, 0, blockSize2)

/-- Modelled from the spec: `finishedRead`, which advances `validStart` by the
number of items read, wrapping at the end of the ring. -/
def finishedRead (f : AbstractFifo) (numRead : Nat) : AbstractFifo :=
  let newStart := f.validStart + numRead
  { f with validStart := if newStart ≥ f.bufferSize then newStart - f.bufferSize else newStart }

end AbstractFifo

/-- Modelled from the spec: the copy of a run of samples into a channel, on
which `copyFrom` rests. It overwrites `dst` from position `pos` on with the
items of `src`, one item after the other; a position outside `dst` is not
written. -/
def writeAt {α : Type} (dst : List α) (pos : Nat) : List α → List α
  | [] => dst
  | x :: xs => writeAt (dst.set pos x) (pos + 1) xs

/-- Modelled from the spec: `juce::AudioBuffer<float>`, a block of
`numSamples` samples per channel, each channel contiguous (section 3, Audio
Block). The sample type is a parameter: the queue only copies samples. -/
structure AudioBuffer (α : Type) where
  numSamples : Nat
  channels : List (List α)

namespace AudioBuffer

variable {α : Type}

/-- Modelled from the spec: the constructor `AudioBuffer (numChannels,
numSamples)`. The memory is not cleared, so the initial content `mem channel
index` is arbitrary. -/
def create (numChannels numSamples : Nat) (mem : Nat → Nat → α) : AudioBuffer α :=
  { numSamples := numSamples
    channels := (List.range numChannels).map fun c => (List.range numSamples).map (mem c) }

/-- The number of channels of the buffer. -/
def getNumChannels (b : AudioBuffer α) : Nat := b.channels.length

/-- The number of samples per channel of the buffer. -/
def getNumSamples (b : AudioBuffer α) : Nat := b.numSamples

/-- The samples of one channel (`getReadPointer`). -/
def getChannel (b : AudioBuffer α) (channel : Nat) : List α := b.channels.getD channel []

/-- Every channel holds exactly `numSamples` samples. -/
def WellFormed (b : AudioBuffer α) : Prop :=
  ∀ c, c < b.getNumChannels → (b.getChannel c).length = b.numSamples

/-- Modelled from the spec: `copyFrom (destChannel, destStartSample, source,
sourceChannel, sourceStartSample, numSamples)`, which copies a run of samples
of one channel of `source` into one channel of the buffer. -/
def copyFrom (dest : AudioBuffer α) (destChannel destStartSample : Nat)
    (source : AudioBuffer α) (sourceChannel sourceStartSample numSamples : Nat) :
    AudioBuffer α :=
  { dest with
    channels := dest.channels.set destChannel
      (writeAt (dest.getChannel destChannel) destStartSample
        (((source.getChannel sourceChannel).drop sourceStartSample).take numSamples)) }

end AudioBuffer

/-- The nested class `PluginProcessor::FifoQueue` (header lines 19 to 29): the
index manager `fifo` and the storage `circularBuffer`. -/
structure FifoQueue (α : Type) where
  fifo : AbstractFifo
  circularBuffer : AudioBuffer α

namespace FifoQueue

variable {α : Type}

/-- The constant `static constexpr int bufferSize = 48000` (header line 26). -/
def bufferSize : Nat := 48000

/-- The reference sample rate of the comment on header line 26, in hertz:
"1 second buffer at 48kHz". -/
def referenceSampleRate : Nat := 48000

/-- The number of channels `circularBuffer` is made with (header line 28). -/
def numChannels : Nat := 2

/-- The member initialisers of header lines 27 and 28:
`fifo { bufferSize }` and `circularBuffer { 2, bufferSize }`. The initial
content `mem` of the storage is arbitrary. -/
def create (mem : Nat → Nat → α) : FifoQueue α :=
  { fifo := AbstractFifo.create bufferSize
    circularBuffer := AudioBuffer.create numChannels bufferSize mem }

/-- Modelled from the spec: the part of `FifoQueue::push` for one channel,
which copies the two granted segments of `buffer` into that channel of the
storage. -/
def writeChannel (storage buffer : AudioBuffer α) (channel : Nat)
    (seg : Nat × Nat × Nat × Nat) : AudioBuffer α :=
  let s1 := storage.copyFrom channel seg.1 buffer channel 0 seg.2.1
  s1.copyFrom channel seg.2.2.1 buffer channel seg.2.1 seg.2.2.2

/-- Modelled from the spec: the part of `FifoQueue::pull` for one channel,
which copies the two granted segments of that channel of the storage to the
front of `buffer`. -/
def readChannel (buffer storage : AudioBuffer α) (channel : Nat)
    (seg : Nat × Nat × Nat × Nat) : AudioBuffer α :=
  let b1 := buffer.copyFrom channel 0 storage channel seg.1 seg.2.1
  b1.copyFrom channel seg.2.1 storage channel seg.2.2.1 seg.2.2.2

/-- Modelled from the spec: `FifoQueue::push`, whose body is not in the
header. It "writes as many samples as fit into the remaining free capacity";
"the excess is silently dropped" (section 4.8). Both channels are written at
the same indices. -/
def push (q : FifoQueue α) (buffer : AudioBuffer α) : FifoQueue α :=
  let seg := q.fifo.prepareToWrite buffer.getNumSamples
  let s0 := writeChannel q.circularBuffer buffer 0 seg
  let s1 := writeChannel s0 buffer 1 seg
  { fifo := q.fifo.finishedWrite (seg.2.1 + seg.2.2.2), circularBuffer := s1 }

/-- Modelled from the spec: `FifoQueue::pull`, whose body is not in the
header. It "drains whatever is available up to the requested size, returning
a completeness flag" (section 4.8): the flag says that as many samples as
`buffer` holds were delivered. The result is the flag, the buffer that was
filled and the queue after the read. -/
def pull (q : FifoQueue α) (buffer : AudioBuffer α) : Bool × AudioBuffer α × FifoQueue α :=
  let seg := q.fifo.prepareToRead buffer.getNumSamples
  let b0 := readChannel buffer q.circularBuffer 0 seg
  let b1 := readChannel b0 q.circularBuffer 1 seg
  (decide (seg.2.1 + seg.2.2.2 = buffer.getNumSamples), b1,
    { q with fifo := q.fifo.finishedRead (seg.2.1 + seg.2.2.2) })

/-- The state of a queue that the push/pull protocol maintains: the indices
lie inside the ring, and the storage has two channels of as many samples as
the ring has slots. -/
def WellFormed (q : FifoQueue α) : Prop :=
  q.fifo.validStart < q.fifo.bufferSize ∧ q.fifo.validEnd < q.fifo.bufferSize ∧
  q.circularBuffer.numSamples = q.fifo.bufferSize ∧
  q.circularBuffer.getNumChannels = 2 ∧ q.circularBuffer.WellFormed

/-- A stereo block: two channels of `numSamples` samples each. -/
def IsStereo (b : AudioBuffer α) : Prop := b.getNumChannels = 2 ∧ b.WellFormed

/-- Push the blocks one after the other, the first block first. -/
def pushAll (q : FifoQueue α) (blocks : List (AudioBuffer α)) : FifoQueue α :=
  blocks.foldl push q

/-- The total number of samples per channel of a sequence of blocks. -/
def totalSamples (blocks : List (AudioBuffer α)) : Nat :=
  (blocks.map AudioBuffer.getNumSamples).sum

/-- The samples of one channel of a sequence of blocks, in push order. -/
def concatChannel (blocks : List (AudioBuffer α)) (channel : Nat) : List α :=
  (blocks.map fun b => b.getChannel channel).flatten

end FifoQueue

/-! ## Auxiliary definitions for the proofs about the ring -/

/-- An index that has run past the end of a ring of `N` slots, taken back
into the ring. -/
def wrapIndex (N j : Nat) : Nat := if j ≥ N then j - N else j

/-- The `n` items of the ring `st` from index `start` on, wrapping at the end:
the two segments a read of `n` items is made of. -/
def ringSlice {α : Type} (st : List α) (start n : Nat) : List α :=
  (st.drop start).take (min (st.length - start) n) ++ st.take (n - min (st.length - start) n)

/-- What `FifoQueue.writeChannel` does to the one channel `st` of the storage
when `b` is the same channel of the pushed block. -/
def ringWrite {α : Type} (st : List α) (seg : Nat × Nat × Nat × Nat) (b : List α) : List α :=
  writeAt (writeAt st seg.1 ((b.drop 0).take seg.2.1)) seg.2.2.1
    ((b.drop seg.2.1).take seg.2.2.2)

/-- What `FifoQueue.readChannel` does to the one channel `out` of the
destination when `st` is the same channel of the storage. -/
def ringRead {α : Type} (out : List α) (seg : Nat × Nat × Nat × Nat) (st : List α) : List α :=
  writeAt (writeAt out 0 ((st.drop seg.1).take seg.2.1)) seg.2.1
    ((st.drop seg.2.2.1).take seg.2.2.2)

/-- The samples of one channel that are ready in the queue, oldest first. -/
def FifoQueue.contents {α : Type} (q : FifoQueue α) (channel : Nat) : List α :=
  ringSlice (q.circularBuffer.getChannel channel) q.fifo.validStart q.fifo.getNumReady

/-! ## The parameter layout -/

theorem rangeOf_lowMidFreq : rangeOf "LOW_MID_FREQ" = some (0, 1000) := rfl

theorem rangeOf_midHighFreq : rangeOf "MID_HIGH_FREQ" = some (1000, 15000) := rfl

theorem rangeOf_chorusFeedback : rangeOf "CHORUS_FEEDBACK" = some (-95, 95) := rfl

theorem rangeOf_compressorThreshold : rangeOf "COMPRESSOR_THRESHOLD" = some (-60, 0) := rfl

theorem rangeOf_compressorRatio : rangeOf "COMPRESSOR_RATIO" = some (1, 20) := rfl

/-- Membership in a declared range, once the range is known. -/
theorem inRange_iff {K : Type} [LinearOrderedField K] (id : String) (lo hi : ℚ) (v : K)
    (h : rangeOf id = some (lo, hi)) : InRange id v ↔ (lo : K) ≤ v ∧ v ≤ (hi : K) := by
  unfold InRange
  rw [h]
  constructor
  · rintro ⟨r, hr, h1, h2⟩
    cases hr
    exact ⟨h1, h2⟩
  · rintro ⟨h1, h2⟩
    exact ⟨(lo, hi), rfl, h1, h2⟩

/-- Claim C1. The layout declares exactly 27 parameters, 22 of them float and
5 boolean, and the list of their identifiers with their declared ranges (no
range for a boolean) is the list of the specification, entry by entry. -/
theorem createParameterLayout_matches_spec :
    createParameterLayout.length = 27 ∧
    (createParameterLayout.filter RangedAudioParameter.isFloat).length = 22 ∧
    (createParameterLayout.filter RangedAudioParameter.isBool).length = 5 ∧
    createParameterLayout.map (fun p => (p.paramID, p.range)) = specParameterList := by
  refine ⟨by decide, by decide, by decide, rfl⟩

/-- Claim C2, at the failing input. The float parameters whose declared
default lies outside their own declared range are exactly one: `BASS_MONO_FREQ`,
declared with range `[10, 300]` and default `0`. -/
theorem bass_mono_freq_default_out_of_range :
    createParameterLayout.filter (fun p => !p.defaultInRange) =
      [RangedAudioParameter.AudioParameterFloat "BASS_MONO_FREQ" 1 "Bass Mono Frequency"
        10 300 0] := by
  simp [createParameterLayout, RangedAudioParameter.defaultInRange]
  norm_num

/-- Claim C3 as stated is false: `1000` lies within the declared range of
`LOW_MID_FREQ` and within the declared range of `MID_HIGH_FREQ`, and
`1000 < 1000` does not hold. -/
theorem crossover_strict_order_fails :
    ¬ ∀ x y : ℚ, InRange "LOW_MID_FREQ" x → InRange "MID_HIGH_FREQ" y → x < y := by
  intro h
  have h1 : InRange "LOW_MID_FREQ" (1000 : ℚ) :=
    (inRange_iff _ _ _ _ rangeOf_lowMidFreq).mpr (by norm_num)
  have h2 : InRange "MID_HIGH_FREQ" (1000 : ℚ) :=
    (inRange_iff _ _ _ _ rangeOf_midHighFreq).mpr (by norm_num)
  exact lt_irrefl _ (h 1000 1000 h1 h2)

/-- Claim C3, amended. For every low-mid value and every mid-high value within
their declared ranges, low-mid is at most mid-high, with equality only when
both are 1000 Hz; the two declared defaults, 1000 and 15000, are strictly
ordered. -/
theorem crossover_order_in_range {K : Type} [LinearOrderedField K] (x y : K)
    (hx : InRange "LOW_MID_FREQ" x) (hy : InRange "MID_HIGH_FREQ" y) :
    x ≤ y ∧ (x = y → x = 1000 ∧ y = 1000) ∧
    ∃ dl dh : ℚ, defaultOf "LOW_MID_FREQ" = some dl ∧ defaultOf "MID_HIGH_FREQ" = some dh ∧
      dl < dh := by
  rw [inRange_iff _ _ _ _ rangeOf_lowMidFreq] at hx
  rw [inRange_iff _ _ _ _ rangeOf_midHighFreq] at hy
  norm_num at hx hy
  refine ⟨by linarith, ?_, 1000, 15000, rfl, rfl, by norm_num⟩
  intro h
  constructor <;> linarith

/-- The amended claim C3 at the pair `(1000, 1000)`, where the two values
meet. -/
theorem crossover_order_in_range_witness :
    (1000 : ℚ) ≤ 1000 ∧ ((1000 : ℚ) = 1000 → (1000 : ℚ) = 1000 ∧ (1000 : ℚ) = 1000) ∧
    ∃ dl dh : ℚ, defaultOf "LOW_MID_FREQ" = some dl ∧ defaultOf "MID_HIGH_FREQ" = some dh ∧
      dl < dh :=
  crossover_order_in_range (1000 : ℚ) (1000 : ℚ)
    ⟨(0, 1000), rfl, by norm_num, by norm_num⟩ ⟨(1000, 15000), rfl, by norm_num, by norm_num⟩

/-- Claim C6. Every value within the declared range of `CHORUS_FEEDBACK` has
magnitude at most 95, hence strictly below 100 percent, and the declared
default feedback is 0. -/
theorem chorus_feedback_below_100 {K : Type} [LinearOrderedField K] (v : K)
    (hv : InRange "CHORUS_FEEDBACK" v) :
    |v| ≤ 95 ∧ |v| < 100 ∧ defaultOf "CHORUS_FEEDBACK" = some 0 := by
  rw [inRange_iff _ _ _ _ rangeOf_chorusFeedback] at hv
  norm_num at hv
  have h95 : |v| ≤ 95 := abs_le.mpr ⟨hv.1, hv.2⟩
  exact ⟨h95, lt_of_le_of_lt h95 (by norm_num), rfl⟩

/-- Claim C6 at the lower end of the range, `-95`. -/
theorem chorus_feedback_below_100_witness :
    |(-95 : ℚ)| ≤ 95 ∧ |(-95 : ℚ)| < 100 ∧ defaultOf "CHORUS_FEEDBACK" = some 0 :=
  chorus_feedback_below_100 (-95 : ℚ) ⟨(-95, 95), rfl, by norm_num, by norm_num⟩

/-- Claim C7. For each of the four mix parameters the declared range is
`[0, 100]`; the mix at the range minimum `0` is the dry signal and at the range
maximum `100` the wet signal, for all dry and wet values; and for every mix
within the range both weights lie in `[0, 1]` and sum to 1. -/
theorem mix_endpoints {K : Type} [LinearOrderedField K] (id : String)
    (hid : id ∈ mixParameters) :
    rangeOf id = some (0, 100) ∧
    (∀ dry wet : K, dryWetMix dry wet 0 = dry ∧ dryWetMix dry wet 100 = wet) ∧
    ∀ mix : K, InRange id mix →
      0 ≤ dryWeight mix ∧ dryWeight mix ≤ 1 ∧ 0 ≤ wetWeight mix ∧ wetWeight mix ≤ 1 ∧
      dryWeight mix + wetWeight mix = 1 := by
  have hr : rangeOf id = some (0, 100) := by
    simp only [mixParameters, List.mem_cons, List.mem_singleton, List.not_mem_nil,
      or_false] at hid
    rcases hid with rfl | rfl | rfl | rfl <;> rfl
  refine ⟨hr, ?_, ?_⟩
  · intro dry wet
    simp [dryWetMix, dryWeight, wetWeight]
  · intro mix hmix
    rw [inRange_iff _ _ _ _ hr] at hmix
    norm_num at hmix
    obtain ⟨h0, h100⟩ := hmix
    have hw0 : 0 ≤ mix / 100 := div_nonneg h0 (by norm_num)
    have hw1 : mix / 100 ≤ 1 := by
      rw [div_le_one (by norm_num)]; exact h100
    simp only [dryWeight, wetWeight]
    refine ⟨by linarith, by linarith, hw0, hw1, by ring⟩

/-- Claim C7 for the convolution mix. -/
theorem mix_endpoints_witness :
    rangeOf "CONV_MIX" = some (0, 100) ∧
    (∀ dry wet : ℚ, dryWetMix dry wet 0 = dry ∧ dryWetMix dry wet 100 = wet) ∧
    ∀ mix : ℚ, InRange "CONV_MIX" mix →
      0 ≤ dryWeight mix ∧ dryWeight mix ≤ 1 ∧ 0 ≤ wetWeight mix ∧ wetWeight mix ≤ 1 ∧
      dryWeight mix + wetWeight mix = 1 :=
  mix_endpoints "CONV_MIX" (by decide)

/-- Claim C8. For every threshold and ratio within their declared ranges the
ratio is at least 1, so it is not zero and the slope `1/ratio` lies in
`[1/20, 1]`; the steady-state gain reduction is 0 for a level at the threshold,
and for every level above the threshold it is non-negative and strictly less
than `level − threshold`. -/
theorem compressor_threshold_boundary {K : Type} [LinearOrderedField K] (threshold ratio : K)
    (_ht : InRange "COMPRESSOR_THRESHOLD" threshold)
    (hr : InRange "COMPRESSOR_RATIO" ratio) :
    1 ≤ ratio ∧ ratio ≠ 0 ∧ 1 / 20 ≤ 1 / ratio ∧ 1 / ratio ≤ 1 ∧
    gainReduction threshold threshold ratio = 0 ∧
    ∀ level : K, threshold < level →
      0 ≤ gainReduction level threshold ratio ∧
      gainReduction level threshold ratio < level - threshold := by
  rw [inRange_iff _ _ _ _ rangeOf_compressorRatio] at hr
  norm_num at hr
  obtain ⟨h1, h20⟩ := hr
  have hpos : 0 < ratio := lt_of_lt_of_le one_pos h1
  have hinv1 : 1 / ratio ≤ 1 := by
    rw [div_le_one hpos]; exact h1
  have hinv20 : 1 / 20 ≤ 1 / ratio := one_div_le_one_div_of_le hpos h20
  have hinvpos : 0 < 1 / ratio := one_div_pos.mpr hpos
  refine ⟨h1, ne_of_gt hpos, hinv20, hinv1, by simp [gainReduction], ?_⟩
  intro level hl
  have hd : 0 < level - threshold := sub_pos.mpr hl
  simp only [gainReduction]
  constructor
  · exact mul_nonneg hd.le (by linarith)
  · calc (level - threshold) * (1 - 1 / ratio)
        < (level - threshold) * 1 := by
          apply mul_lt_mul_of_pos_left _ hd
          linarith
      _ = level - threshold := mul_one _

/-- Claim C8 at the declared defaults, threshold `-24` and ratio `4`. -/
theorem compressor_threshold_boundary_witness :
    (1 : ℚ) ≤ 4 ∧ (4 : ℚ) ≠ 0 ∧ (1 : ℚ) / 20 ≤ 1 / 4 ∧ (1 : ℚ) / 4 ≤ 1 ∧
    gainReduction (-24 : ℚ) (-24) 4 = 0 ∧
    ∀ level : ℚ, -24 < level →
      0 ≤ gainReduction level (-24) 4 ∧ gainReduction level (-24) 4 < level - (-24) :=
  compressor_threshold_boundary (-24 : ℚ) 4
    ⟨(-60, 0), rfl, by norm_num, by norm_num⟩ ⟨(1, 20), rfl, by norm_num, by norm_num⟩

/-- Claim C9. For every requested pair `(x, y)`, clamping `x` to the declared
range of `LOW_MID_FREQ` and `y` to the declared range of `MID_HIGH_FREQ` gives
cutoffs with low-mid at most mid-high, with equality only when both are 1000;
the requested pair `(5000, 2000)` is clamped to `(1000, 2000)`. -/
theorem crossover_clamp_order {K : Type} [LinearOrderedField K] (x y : K) :
    (∃ lo hi : K, clampToRange "LOW_MID_FREQ" x = some lo ∧
      clampToRange "MID_HIGH_FREQ" y = some hi ∧
      lo ≤ hi ∧ (lo = hi → lo = 1000 ∧ hi = 1000)) ∧
    clampToRange "LOW_MID_FREQ" (5000 : K) = some 1000 ∧
    clampToRange "MID_HIGH_FREQ" (2000 : K) = some 2000 := by
  have hl : ∀ v : K, clampToRange "LOW_MID_FREQ" v = some (max 0 (min v 1000)) := by
    intro v
    simp [clampToRange, rangeOf_lowMidFreq]
  have hh : ∀ v : K, clampToRange "MID_HIGH_FREQ" v = some (max 1000 (min v 15000)) := by
    intro v
    simp [clampToRange, rangeOf_midHighFreq]
  refine ⟨⟨_, _, hl x, hh y, ?_, ?_⟩, ?_, ?_⟩
  · have h1 : max 0 (min x 1000) ≤ (1000 : K) :=
      max_le (by norm_num) (min_le_right _ _)
    exact le_trans h1 (le_max_left _ _)
  · intro h
    have h1 : max 0 (min x 1000) ≤ (1000 : K) :=
      max_le (by norm_num) (min_le_right _ _)
    have h2 : (1000 : K) ≤ max 1000 (min y 15000) := le_max_left _ _
    constructor
    · exact le_antisymm h1 (by rw [h]; exact h2)
    · exact le_antisymm (by rw [← h]; exact h1) h2
  · rw [hl]
    congr 1
    rw [min_eq_right (by norm_num), max_eq_right (by norm_num)]
  · rw [hh]
    congr 1
    rw [min_eq_left (by norm_num), max_eq_right (by norm_num)]

/-- Claim C10. The identifiers of the declared parameters are pairwise
distinct, so a parameter of the layout is determined by its identifier, and
every parameter carries version hint 1. -/
theorem parameter_ids_distinct :
    (createParameterLayout.map RangedAudioParameter.paramID).Nodup ∧
    (∀ p ∈ createParameterLayout, ∀ q ∈ createParameterLayout,
      p.paramID = q.paramID → p = q) ∧
    ∀ p ∈ createParameterLayout, p.versionHint = 1 := by
  have hnd : (createParameterLayout.map RangedAudioParameter.paramID).Nodup := by decide
  refine ⟨hnd, ?_, by decide⟩
  intro p hp q hq h
  exact List.inj_on_of_nodup_map hnd hp hq h

/-! ## Lemmas about the ring -/


theorem writeAt_length {α : Type} (src : List α) :
    ∀ (dst : List α) (pos : Nat), (writeAt dst pos src).length = dst.length := by
  induction src with
  | nil => intro dst pos; rfl
  | cons x xs ih => intro dst pos; simp [writeAt, ih]

theorem writeAt_getElem? {α : Type} (src : List α) :
    ∀ (dst : List α) (pos j : Nat),
      (writeAt dst pos src)[j]? =
        if pos ≤ j ∧ j < pos + src.length ∧ j < dst.length then src[j - pos]? else dst[j]? := by
  induction src with
  | nil =>
    intro dst pos j
    have h : ¬ (pos ≤ j ∧ j < pos + 0 ∧ j < dst.length) := by omega
    simp only [writeAt, List.length_nil, if_neg h]
  | cons x xs ih =>
    intro dst pos j
    simp only [writeAt, ih, List.length_set, List.length_cons, List.getElem?_set]
    by_cases h1 : pos = j
    · subst h1
      by_cases h2 : pos < dst.length
      · simp [h2]
      · simp [h2]; omega
    · by_cases h2 : pos + 1 ≤ j ∧ j < pos + 1 + xs.length ∧ j < dst.length
      · have h3 : pos ≤ j ∧ j < pos + (xs.length + 1) ∧ j < dst.length := by omega
        have h4 : j - pos = (j - (pos + 1)) + 1 := by omega
        rw [if_pos h2, if_pos h3, h4, List.getElem?_cons_succ]
      · have h3 : ¬ (pos ≤ j ∧ j < pos + (xs.length + 1) ∧ j < dst.length) := by omega
        rw [if_neg h2, if_neg h3, if_neg h1]

theorem ringSlice_length {α : Type} (st : List α) (start n : Nat)
    (hs : start < st.length) (hn : n ≤ st.length) : (ringSlice st start n).length = n := by
  simp only [ringSlice, List.length_append, List.length_take, List.length_drop]
  omega

theorem ringSlice_getElem? {α : Type} (st : List α) (start n i : Nat)
    (hs : start < st.length) :
    (ringSlice st start n)[i]? =
      if i < n then st[wrapIndex st.length (start + i)]? else none := by
  simp only [ringSlice, List.getElem?_append, List.length_take, List.length_drop,
    List.getElem?_take, List.getElem?_drop, wrapIndex]
  split_ifs <;> first | rfl | omega | (congr 1; omega)

open AbstractFifo

theorem getNumReady_cases (f : AbstractFifo) :
    (f.validEnd ≥ f.validStart ∧ f.getNumReady = f.validEnd - f.validStart) ∨
    (f.validEnd < f.validStart ∧
      f.getNumReady = f.bufferSize - (f.validStart - f.validEnd)) := by
  unfold getNumReady
  split_ifs <;> omega

theorem getNumReady_lt (f : AbstractFifo) (hvs : f.validStart < f.bufferSize)
    (hve : f.validEnd < f.bufferSize) : f.getNumReady < f.bufferSize := by
  unfold getNumReady
  split_ifs <;> omega

theorem prepareToWrite_fit (f : AbstractFifo) (n : Nat)
    (hve : f.validEnd < f.bufferSize) (hfit : n ≤ f.getFreeSpace) (hpos : 0 < n) :
    f.prepareToWrite n =
      (f.validEnd, min (f.bufferSize - f.validEnd) n, 0, n - min (f.bufferSize - f.validEnd) n) := by
  have hg : min n f.getFreeSpace = n := Nat.min_eq_left hfit
  unfold getFreeSpace getNumReady at hfit
  simp only [prepareToWrite, hg]
  rw [if_neg (by omega)]
  split_ifs at hfit with h1
  · split_ifs with h2
    · simp only [Prod.mk.injEq, true_and]; omega
    · simp only [Prod.mk.injEq, true_and]; omega
  · split_ifs with h2
    · simp only [Prod.mk.injEq, true_and]; omega
    · simp only [Prod.mk.injEq, true_and]; omega

theorem finishedWrite_numReady (f : AbstractFifo) (n : Nat) (hvs : f.validStart < f.bufferSize)
    (hve : f.validEnd < f.bufferSize) (hfit : n ≤ f.getFreeSpace) :
    (f.finishedWrite n).getNumReady = f.getNumReady + n ∧
    (f.finishedWrite n).validEnd < f.bufferSize ∧
    (f.finishedWrite n).validEnd = wrapIndex f.bufferSize (f.validStart + (f.getNumReady + n)) := by
  unfold getFreeSpace at hfit
  unfold getNumReady at *
  simp only [finishedWrite, wrapIndex]
  split_ifs at * <;> omega

theorem ringWrite_length {α : Type} (st : List α) (seg : Nat × Nat × Nat × Nat) (b : List α) :
    (ringWrite st seg b).length = st.length := by
  simp only [ringWrite, writeAt_length]

theorem ringWrite_getElem? {α : Type} (st b : List α) (ve j : Nat) (hve : ve < st.length)
    (hn : b.length < st.length) :
    (ringWrite st (ve, min (st.length - ve) b.length, 0, b.length - min (st.length - ve) b.length) b)[j]? =
      if j < st.length then
        (if ve ≤ j ∧ j < ve + b.length then b[j - ve]?
         else if j + st.length < ve + b.length then b[j + st.length - ve]? else st[j]?)
      else none := by
  simp only [ringWrite, writeAt_getElem?, writeAt_length, List.length_take, List.length_drop,
    List.getElem?_take, List.getElem?_drop]
  split_ifs <;> first | rfl | omega | (congr 1; omega) | (rw [List.getElem?_eq_none_iff]; omega)

theorem ringSlice_push {α : Type} (f : AbstractFifo) (st b : List α)
    (hN : st.length = f.bufferSize) (hvs : f.validStart < f.bufferSize)
    (hve : f.validEnd < f.bufferSize) (hfit : b.length ≤ f.getFreeSpace) :
    ringSlice (ringWrite st (f.prepareToWrite b.length) b) f.validStart
        (f.getNumReady + b.length) =
      ringSlice st f.validStart f.getNumReady ++ b := by
  rcases Nat.eq_zero_or_pos b.length with h0 | hpos
  · have hb : b = [] := List.length_eq_zero.mp h0
    subst hb
    simp [prepareToWrite, ringWrite, writeAt]
  · rw [prepareToWrite_fit f b.length hve hfit hpos]
    have hR := getNumReady_lt f hvs hve
    have hlen : b.length < st.length := by
      unfold getFreeSpace at hfit; omega
    apply List.ext_getElem?
    intro i
    have hw := ringWrite_getElem? st b f.validEnd (wrapIndex st.length (f.validStart + i))
      (by omega) hlen
    rw [hN] at hw
    have hl := ringWrite_length st (f.validEnd, min (f.bufferSize - f.validEnd) b.length, 0,
      b.length - min (f.bufferSize - f.validEnd) b.length) b
    generalize ringWrite st (f.validEnd, min (f.bufferSize - f.validEnd) b.length, 0,
      b.length - min (f.bufferSize - f.validEnd) b.length) b = st2 at hw hl ⊢
    rw [ringSlice_getElem? st2 f.validStart _ i (by omega)]
    rw [List.getElem?_append, ringSlice_length st _ _ (by omega) (by omega),
      ringSlice_getElem? st _ _ _ (by omega)]
    rw [hl, hN, hw]
    have hc := getNumReady_cases f
    unfold getFreeSpace at hfit
    generalize f.getNumReady = R at hfit hR hc ⊢
    unfold wrapIndex
    split_ifs <;> first | rfl | omega | (congr 1; omega) | (symm; rw [List.getElem?_eq_none_iff]; omega)

theorem prepareToRead_fit (f : AbstractFifo) (n : Nat) (hvs : f.validStart < f.bufferSize)
    (hfit : n ≤ f.getNumReady) (hpos : 0 < n) :
    f.prepareToRead n =
      (f.validStart, min (f.bufferSize - f.validStart) n, 0,
        n - min (f.bufferSize - f.validStart) n) := by
  have hg : min n f.getNumReady = n := Nat.min_eq_left hfit
  have hc := getNumReady_cases f
  simp only [prepareToRead, hg]
  generalize f.getNumReady = R at hfit hc
  rw [if_neg (by omega)]
  split_ifs with h2
  · simp only [Prod.mk.injEq, true_and]; omega
  · simp only [Prod.mk.injEq, true_and]; omega

theorem ringRead_eq_ringSlice {α : Type} (f : AbstractFifo) (st out : List α)
    (hN : st.length = f.bufferSize) (hvs : f.validStart < f.bufferSize)
    (hve : f.validEnd < f.bufferSize) (hfit : out.length ≤ f.getNumReady) :
    ringRead out (f.prepareToRead out.length) st = ringSlice st f.validStart out.length := by
  rcases Nat.eq_zero_or_pos out.length with h0 | hpos
  · have ho : out = [] := List.length_eq_zero.mp h0
    subst ho
    simp [prepareToRead, ringRead, ringSlice, writeAt]
  · rw [prepareToRead_fit f out.length hvs hfit hpos]
    have hR := getNumReady_lt f hvs hve
    apply List.ext_getElem?
    intro i
    rw [ringSlice_getElem? st _ _ _ (by omega)]
    simp only [ringRead, writeAt_getElem?, writeAt_length, List.length_take, List.length_drop,
      List.getElem?_take, List.getElem?_drop, wrapIndex, hN]
    split_ifs <;> first | rfl | omega | (congr 1; omega) | (rw [List.getElem?_eq_none_iff]; omega)

theorem prepareToRead_total (f : AbstractFifo) (n : Nat) (hvs : f.validStart < f.bufferSize)
    (hfit : n ≤ f.getNumReady) :
    (f.prepareToRead n).2.1 + (f.prepareToRead n).2.2.2 = n := by
  rcases Nat.eq_zero_or_pos n with h0 | hpos
  · subst h0; simp [prepareToRead]
  · rw [prepareToRead_fit f n hvs hfit hpos]
    simp only
    omega

theorem prepareToWrite_total (f : AbstractFifo) (n : Nat)
    (hve : f.validEnd < f.bufferSize) (hfit : n ≤ f.getFreeSpace) :
    (f.prepareToWrite n).2.1 + (f.prepareToWrite n).2.2.2 = n := by
  rcases Nat.eq_zero_or_pos n with h0 | hpos
  · subst h0; simp [prepareToWrite]
  · rw [prepareToWrite_fit f n hve hfit hpos]
    simp only
    omega

theorem finishedRead_all (f : AbstractFifo) (hvs : f.validStart < f.bufferSize)
    (hve : f.validEnd < f.bufferSize) :
    (f.finishedRead f.getNumReady).getNumReady = 0 := by
  have hc := getNumReady_cases f
  generalize hR : f.getNumReady = R at hc
  simp only [finishedRead, getNumReady]
  split_ifs <;> omega

/-! ## Lemmas about the buffers and the queue -/

theorem getD_set_channel {α : Type} (l : List (List α)) (i j : Nat) (a : List α)
    (hi : i < l.length) : (l.set i a).getD j [] = if i = j then a else l.getD j [] := by
  simp only [List.getD_eq_getElem?_getD, List.getElem?_set]
  split_ifs <;> simp

namespace AudioBuffer

variable {α : Type}

theorem getChannel_copyFrom (dest source : AudioBuffer α) (dc ds sc ss k c : Nat)
    (hdc : dc < dest.getNumChannels) :
    (dest.copyFrom dc ds source sc ss k).getChannel c =
      if dc = c then writeAt (dest.getChannel dc) ds (((source.getChannel sc).drop ss).take k)
      else dest.getChannel c := by
  simp only [copyFrom, getChannel]
  exact getD_set_channel _ _ _ _ hdc

theorem getNumChannels_copyFrom (dest source : AudioBuffer α) (dc ds sc ss k : Nat) :
    (dest.copyFrom dc ds source sc ss k).getNumChannels = dest.getNumChannels := by
  simp only [copyFrom, getNumChannels, List.length_set]

theorem numSamples_copyFrom (dest source : AudioBuffer α) (dc ds sc ss k : Nat) :
    (dest.copyFrom dc ds source sc ss k).numSamples = dest.numSamples := rfl

end AudioBuffer

namespace FifoQueue

variable {α : Type}

theorem getChannel_writeChannel (storage buffer : AudioBuffer α) (ch c : Nat)
    (seg : Nat × Nat × Nat × Nat) (hch : ch < storage.getNumChannels) :
    (writeChannel storage buffer ch seg).getChannel c =
      if ch = c then ringWrite (storage.getChannel ch) seg (buffer.getChannel ch)
      else storage.getChannel c := by
  simp only [writeChannel]
  rw [AudioBuffer.getChannel_copyFrom _ _ _ _ _ _ _ _
    (by rw [AudioBuffer.getNumChannels_copyFrom]; exact hch)]
  rw [AudioBuffer.getChannel_copyFrom _ _ _ _ _ _ _ _ hch,
    AudioBuffer.getChannel_copyFrom _ _ _ _ _ _ _ _ hch]
  by_cases h : ch = c
  · subst h
    simp only [eq_self_iff_true, if_true]
    rfl
  · simp only [if_neg h]

theorem getNumChannels_writeChannel (storage buffer : AudioBuffer α) (ch : Nat)
    (seg : Nat × Nat × Nat × Nat) :
    (writeChannel storage buffer ch seg).getNumChannels = storage.getNumChannels := by
  simp only [writeChannel, AudioBuffer.getNumChannels_copyFrom]

theorem numSamples_writeChannel (storage buffer : AudioBuffer α) (ch : Nat)
    (seg : Nat × Nat × Nat × Nat) :
    (writeChannel storage buffer ch seg).numSamples = storage.numSamples := rfl

theorem getChannel_readChannel (buffer storage : AudioBuffer α) (ch c : Nat)
    (seg : Nat × Nat × Nat × Nat) (hch : ch < buffer.getNumChannels) :
    (readChannel buffer storage ch seg).getChannel c =
      if ch = c then ringRead (buffer.getChannel ch) seg (storage.getChannel ch)
      else buffer.getChannel c := by
  simp only [readChannel]
  rw [AudioBuffer.getChannel_copyFrom _ _ _ _ _ _ _ _
    (by rw [AudioBuffer.getNumChannels_copyFrom]; exact hch)]
  rw [AudioBuffer.getChannel_copyFrom _ _ _ _ _ _ _ _ hch,
    AudioBuffer.getChannel_copyFrom _ _ _ _ _ _ _ _ hch]
  by_cases h : ch = c
  · subst h
    simp only [eq_self_iff_true, if_true]
    rfl
  · simp only [if_neg h]

theorem getNumChannels_readChannel (buffer storage : AudioBuffer α) (ch : Nat)
    (seg : Nat × Nat × Nat × Nat) :
    (readChannel buffer storage ch seg).getNumChannels = buffer.getNumChannels := by
  simp only [readChannel, AudioBuffer.getNumChannels_copyFrom]

theorem getChannel_push (q : FifoQueue α) (b : AudioBuffer α) (c : Nat)
    (hch : q.circularBuffer.getNumChannels = 2) (hc : c < 2) :
    (q.push b).circularBuffer.getChannel c =
      ringWrite (q.circularBuffer.getChannel c) (q.fifo.prepareToWrite b.getNumSamples)
        (b.getChannel c) := by
  simp only [push]
  have h01 : c = 0 ∨ c = 1 := by omega
  rcases h01 with rfl | rfl
  · rw [getChannel_writeChannel _ _ 1 0 _ (by rw [getNumChannels_writeChannel]; omega),
      if_neg (by decide), getChannel_writeChannel _ _ 0 0 _ (by omega), if_pos rfl]
  · rw [getChannel_writeChannel _ _ 1 1 _ (by rw [getNumChannels_writeChannel]; omega),
      if_pos rfl, getChannel_writeChannel _ _ 0 1 _ (by omega), if_neg (by decide)]

theorem push_spec (q : FifoQueue α) (b : AudioBuffer α) (hq : q.WellFormed)
    (hb : IsStereo b) (hfit : b.getNumSamples ≤ q.fifo.getFreeSpace) :
    (q.push b).WellFormed ∧
    (q.push b).fifo.bufferSize = q.fifo.bufferSize ∧
    (q.push b).fifo.validStart = q.fifo.validStart ∧
    (q.push b).fifo.getNumReady = q.fifo.getNumReady + b.getNumSamples ∧
    ∀ c, c < 2 → (q.push b).contents c = q.contents c ++ b.getChannel c := by
  obtain ⟨hvs, hve, hns, hnc, hwf⟩ := hq
  obtain ⟨hbc, hbwf⟩ := hb
  have htot := prepareToWrite_total q.fifo b.getNumSamples hve hfit
  have hfw := finishedWrite_numReady q.fifo b.getNumSamples hvs hve hfit
  have hfifo : (q.push b).fifo = q.fifo.finishedWrite b.getNumSamples := by
    simp only [push, htot]
  have hlen : ∀ c, c < 2 → ((q.push b).circularBuffer.getChannel c).length =
      q.fifo.bufferSize := by
    intro c hc
    rw [getChannel_push q b c hnc hc, ringWrite_length, hwf c (by omega), hns]
  refine ⟨⟨?_, ?_, ?_, ?_, ?_⟩, ?_, ?_, ?_, ?_⟩
  · rw [hfifo]; exact hvs
  · rw [hfifo]; exact hfw.2.1
  · rw [hfifo]; exact hns
  · simp only [push, getNumChannels_writeChannel]; exact hnc
  · intro c hc
    have hc2 : c < 2 := by
      have : (q.push b).circularBuffer.getNumChannels = 2 := by
        simp only [push, getNumChannels_writeChannel]; exact hnc
      omega
    rw [hlen c hc2]
    exact hns.symm
  · rw [hfifo]; rfl
  · rw [hfifo]; rfl
  · rw [hfifo]; exact hfw.1
  · intro c hc
    simp only [contents]
    rw [hfifo, hfw.1, getChannel_push q b c hnc hc]
    have hst : (q.circularBuffer.getChannel c).length = q.fifo.bufferSize := by
      rw [hwf c (by omega), hns]
    have hbl : (b.getChannel c).length = b.getNumSamples := hbwf c (by omega)
    have := ringSlice_push q.fifo (q.circularBuffer.getChannel c) (b.getChannel c) hst hvs hve
      (by rw [hbl]; exact hfit)
    rw [hbl] at this
    exact this

theorem getFreeSpace_push (q : FifoQueue α) (b : AudioBuffer α) (hq : q.WellFormed)
    (hb : IsStereo b) (hfit : b.getNumSamples ≤ q.fifo.getFreeSpace) :
    (q.push b).fifo.getFreeSpace = q.fifo.getFreeSpace - b.getNumSamples := by
  obtain ⟨_, h1, _, h3, _⟩ := push_spec q b hq hb hfit
  simp only [AbstractFifo.getFreeSpace, h1, h3]
  omega

theorem pushAll_spec (blocks : List (AudioBuffer α)) :
    ∀ q : FifoQueue α, q.WellFormed → (∀ b ∈ blocks, IsStereo b) →
      totalSamples blocks ≤ q.fifo.getFreeSpace →
      (q.pushAll blocks).WellFormed ∧
      (q.pushAll blocks).fifo.validStart = q.fifo.validStart ∧
      (q.pushAll blocks).fifo.getNumReady = q.fifo.getNumReady + totalSamples blocks ∧
      ∀ c, c < 2 → (q.pushAll blocks).contents c = q.contents c ++ concatChannel blocks c := by
  induction blocks with
  | nil =>
    intro q hq _ _
    refine ⟨hq, rfl, ?_, ?_⟩
    · simp [pushAll, totalSamples]
    · intro c _
      simp [pushAll, concatChannel]
  | cons b bs ih =>
    intro q hq hbs hfit
    have hb : IsStereo b := hbs b (List.mem_cons_self _ _)
    have htot : totalSamples (b :: bs) = b.getNumSamples + totalSamples bs := by
      simp [totalSamples]
    rw [htot] at hfit
    have hfb : b.getNumSamples ≤ q.fifo.getFreeSpace := by omega
    obtain ⟨h0, _, h2, h3, h4⟩ := push_spec q b hq hb hfb
    have hfree := getFreeSpace_push q b hq hb hfb
    obtain ⟨i0, i1, i2, i3⟩ := ih (q.push b) h0
      (fun x hx => hbs x (List.mem_cons_of_mem _ hx)) (by rw [hfree]; omega)
    have hpa : q.pushAll (b :: bs) = (q.push b).pushAll bs := rfl
    rw [hpa, htot]
    refine ⟨i0, by rw [i1, h2], by rw [i2, h3]; omega, ?_⟩
    intro c hc
    rw [i3 c hc, h4 c hc]
    simp [concatChannel]

theorem getChannel_pull (q : FifoQueue α) (out : AudioBuffer α) (c : Nat)
    (hch : out.getNumChannels = 2) (hc : c < 2) :
    (q.pull out).2.1.getChannel c =
      ringRead (out.getChannel c) (q.fifo.prepareToRead out.getNumSamples)
        (q.circularBuffer.getChannel c) := by
  simp only [pull]
  have h01 : c = 0 ∨ c = 1 := by omega
  rcases h01 with rfl | rfl
  · rw [getChannel_readChannel _ _ 1 0 _ (by rw [getNumChannels_readChannel]; omega),
      if_neg (by decide), getChannel_readChannel _ _ 0 0 _ (by omega), if_pos rfl]
  · rw [getChannel_readChannel _ _ 1 1 _ (by rw [getNumChannels_readChannel]; omega),
      if_pos rfl, getChannel_readChannel _ _ 0 1 _ (by omega), if_neg (by decide)]

theorem pull_all_spec (q : FifoQueue α) (out : AudioBuffer α) (hq : q.WellFormed)
    (hout : IsStereo out) (hreq : out.getNumSamples = q.fifo.getNumReady) :
    (q.pull out).1 = true ∧
    (∀ c, c < 2 → (q.pull out).2.1.getChannel c = q.contents c) ∧
    (q.pull out).2.2.fifo.getNumReady = 0 := by
  obtain ⟨hvs, hve, hns, hnc, hwf⟩ := hq
  obtain ⟨hoc, howf⟩ := hout
  have htot := prepareToRead_total q.fifo out.getNumSamples hvs (by omega)
  refine ⟨?_, ?_, ?_⟩
  · simp only [pull, htot, decide_True]
  · intro c hc
    rw [getChannel_pull q out c hoc hc]
    have hst : (q.circularBuffer.getChannel c).length = q.fifo.bufferSize := by
      rw [hwf c (by omega), hns]
    have hol : (out.getChannel c).length = out.getNumSamples := howf c (by omega)
    have := ringRead_eq_ringSlice q.fifo (q.circularBuffer.getChannel c) (out.getChannel c)
      hst hvs hve (by omega)
    rw [hol] at this
    rw [this, hreq]
    rfl
  · rw [hreq] at htot
    simp only [pull, hreq, htot]
    exact finishedRead_all q.fifo hvs hve

theorem contents_of_empty (q : FifoQueue α) (c : Nat)
    (hempty : q.fifo.validStart = q.fifo.validEnd) : q.contents c = [] := by
  have h0 : q.fifo.getNumReady = 0 := by
    simp [AbstractFifo.getNumReady, hempty]
  simp [contents, h0, ringSlice]

theorem getChannel_create (mem : Nat → Nat → α) (c : Nat) (hc : c < 2) :
    (create mem).circularBuffer.getChannel c = (List.range bufferSize).map (mem c) := by
  have h01 : c = 0 ∨ c = 1 := by omega
  rcases h01 with rfl | rfl <;>
    simp [create, AudioBuffer.create, AudioBuffer.getChannel, numChannels, List.range_succ]

theorem getNumChannels_create (mem : Nat → Nat → α) :
    (create mem).circularBuffer.getNumChannels = 2 := by
  simp [create, AudioBuffer.create, AudioBuffer.getNumChannels, numChannels]

theorem create_wellFormed (mem : Nat → Nat → α) : (create mem).WellFormed := by
  have hpos : (0 : Nat) < 48000 := by decide
  refine ⟨hpos, hpos, rfl, getNumChannels_create mem, ?_⟩
  intro c hc
  rw [getNumChannels_create] at hc
  rw [getChannel_create mem c hc]
  simp [create, AudioBuffer.create]

theorem isStereo_of_lengths (n : Nat) (l0 l1 : List α) (h0 : l0.length = n)
    (h1 : l1.length = n) : IsStereo (⟨n, [l0, l1]⟩ : AudioBuffer α) := by
  refine ⟨rfl, ?_⟩
  intro c hc
  have hc2 : c < 2 := hc
  have h01 : c = 0 ∨ c = 1 := by omega
  rcases h01 with rfl | rfl
  · exact h0
  · exact h1

end FifoQueue

/-- Claim C4. Round trip of the visualisation queue: starting from an empty
queue, push any sequence of stereo blocks whose total length fits into the free
space, then pull that total number of samples. The pull reports completeness,
each channel of the pulled buffer is the concatenation of that channel of the
pushed blocks in push order, and the queue is empty again. -/
theorem FifoQueue_push_pull_roundtrip {α : Type} (q : FifoQueue α)
    (blocks : List (AudioBuffer α)) (out : AudioBuffer α)
    (hq : q.WellFormed) (hempty : q.fifo.validStart = q.fifo.validEnd)
    (hblocks : ∀ b ∈ blocks, FifoQueue.IsStereo b)
    (hfit : FifoQueue.totalSamples blocks ≤ q.fifo.getFreeSpace)
    (hout : FifoQueue.IsStereo out)
    (hreq : out.getNumSamples = FifoQueue.totalSamples blocks) :
    ((q.pushAll blocks).pull out).1 = true ∧
    ((q.pushAll blocks).pull out).2.1.getChannel 0 = FifoQueue.concatChannel blocks 0 ∧
    ((q.pushAll blocks).pull out).2.1.getChannel 1 = FifoQueue.concatChannel blocks 1 ∧
    ((q.pushAll blocks).pull out).2.2.fifo.getNumReady = 0 := by
  obtain ⟨h0, _, h2, h3⟩ := FifoQueue.pushAll_spec blocks q hq hblocks hfit
  have hnr : q.fifo.getNumReady = 0 := by
    simp [AbstractFifo.getNumReady, hempty]
  obtain ⟨p1, p2, p3⟩ := FifoQueue.pull_all_spec (q.pushAll blocks) out h0 hout
    (by rw [h2, hnr, hreq]; omega)
  refine ⟨p1, ?_, ?_, p3⟩
  · rw [p2 0 (by decide), h3 0 (by decide), FifoQueue.contents_of_empty q 0 hempty]; rfl
  · rw [p2 1 (by decide), h3 1 (by decide), FifoQueue.contents_of_empty q 1 hempty]; rfl

/-- Claim C4 on the queue of the header, freshly made over zeroed storage: the
blocks `(1, 2 | 3, 4)` and `(5 | 6)` are pushed and three samples are pulled. -/
theorem FifoQueue_push_pull_roundtrip_witness :
    (((FifoQueue.create (fun _ _ => (0 : ℤ))).pushAll
        [⟨2, [[1, 2], [3, 4]]⟩, ⟨1, [[5], [6]]⟩]).pull ⟨3, [[0, 0, 0], [0, 0, 0]]⟩).1 = true ∧
    (((FifoQueue.create (fun _ _ => (0 : ℤ))).pushAll
        [⟨2, [[1, 2], [3, 4]]⟩, ⟨1, [[5], [6]]⟩]).pull
          ⟨3, [[0, 0, 0], [0, 0, 0]]⟩).2.1.getChannel 0 = [1, 2, 5] ∧
    (((FifoQueue.create (fun _ _ => (0 : ℤ))).pushAll
        [⟨2, [[1, 2], [3, 4]]⟩, ⟨1, [[5], [6]]⟩]).pull
          ⟨3, [[0, 0, 0], [0, 0, 0]]⟩).2.1.getChannel 1 = [3, 4, 6] ∧
    (((FifoQueue.create (fun _ _ => (0 : ℤ))).pushAll
        [⟨2, [[1, 2], [3, 4]]⟩, ⟨1, [[5], [6]]⟩]).pull
          ⟨3, [[0, 0, 0], [0, 0, 0]]⟩).2.2.fifo.getNumReady = 0 := by
  exact FifoQueue_push_pull_roundtrip (FifoQueue.create (fun _ _ => (0 : ℤ)))
    [⟨2, [[1, 2], [3, 4]]⟩, ⟨1, [[5], [6]]⟩] ⟨3, [[0, 0, 0], [0, 0, 0]]⟩
    (FifoQueue.create_wellFormed _) rfl
    (by
      intro b hb
      simp only [List.mem_cons, List.mem_singleton, List.not_mem_nil, or_false] at hb
      rcases hb with rfl | rfl
      · exact FifoQueue.isStereo_of_lengths 2 _ _ rfl rfl
      · exact FifoQueue.isStereo_of_lengths 1 _ _ rfl rfl)
    (by decide) (FifoQueue.isStereo_of_lengths 3 _ _ rfl rfl) rfl

/-- Claim C5. The storage of the queue is sized for one second of two-channel
audio at the reference rate of 48 kHz: `bufferSize` is 48000 samples, which is
one second at 48000 Hz; the storage has 2 channels of `bufferSize` samples
each; the index manager is made with the same size; and every index below
that size is an index of a sample in each of the two channels. -/
theorem FifoQueue_storage_one_second {α : Type} (mem : Nat → Nat → α) :
    FifoQueue.bufferSize = 48000 ∧
    FifoQueue.bufferSize = 1 * FifoQueue.referenceSampleRate ∧
    FifoQueue.bufferSize / FifoQueue.referenceSampleRate = 1 ∧
    (FifoQueue.create mem).circularBuffer.getNumChannels = 2 ∧
    (FifoQueue.create mem).circularBuffer.getNumSamples = FifoQueue.bufferSize ∧
    (FifoQueue.create mem).fifo.getTotalSize = FifoQueue.bufferSize ∧
    (FifoQueue.create mem).fifo.getTotalSize =
      (FifoQueue.create mem).circularBuffer.getNumSamples ∧
    ∀ c, c < 2 →
      ((FifoQueue.create mem).circularBuffer.getChannel c).length = FifoQueue.bufferSize ∧
      ∀ i, i < (FifoQueue.create mem).fifo.getTotalSize →
        ((FifoQueue.create mem).circularBuffer.getChannel c)[i]? = some (mem c i) := by
  refine ⟨rfl, rfl, by decide, ?_, rfl, rfl, rfl, ?_⟩
  · exact FifoQueue.getNumChannels_create mem
  · intro c hc
    rw [FifoQueue.getChannel_create mem c hc]
    refine ⟨by simp, ?_⟩
    intro i hi
    have hi2 : i < FifoQueue.bufferSize := hi
    rw [List.getElem?_map, List.getElem?_range hi2]
    rfl

end PluginProcessor
